import Mathlib

/-!
Shallow embedding of the Schnorr zero-knowledge proof subsystem (package
`schnorr`, GG18Spec Fig. 16/17) and of the EdDSA signing finalization round
(`eddsa/signing/round_3.go`) of the ZpokenWeb3/tss-lib repository, together
with theorems settling the frozen claims about them.

The elliptic-curve arithmetic, the tagged hash, rejection sampling, the
commitment scheme, the poseidon hash and the edwards25519 scalar routines are
external collaborators of the verified core; they enter the embedding as
abstract function parameters (`CurveGroup`, `HashFns`, `ExtEnv`), exactly as
the specification designates them out of scope.  Go `nil` pointers are
modelled with `Option`, Go `(value, error)` returns with explicit result
types, and a Go runtime panic (nil dereference, out-of-range `panic`) with a
distinguished `crash` outcome.
-/

set_option maxHeartbeats 1000000

variable {P : Type}

/-- A `tss.Error` as produced by `round.WrapError(err, culprits...)`: the
message of the wrapped error together with the indices of the culprit
parties (empty when `WrapError` was called without culprits). -/
structure TssError where
  msg : String
  culprits : List ℕ
deriving DecidableEq, Repr

/-- Result of a Go proof constructor returning `(*Proof, error)`:
`ok` a proof, `err` an error string, or `crash` for a runtime panic
(for example a nil `*big.Int` dereference). -/
inductive CtorRes (α : Type) where
  | ok : α → CtorRes α
  | err : String → CtorRes α
  | crash : String → CtorRes α
deriving DecidableEq, Repr

/-- Result of a round-level Go computation returning `*tss.Error` (or a value
and a `*tss.Error`): `ok`, a returned `err`, or a runtime `crash`. -/
inductive RoundRes (α : Type) where
  | ok : α → RoundRes α
  | err : TssError → RoundRes α
  | crash : String → RoundRes α
deriving DecidableEq, Repr

/-- Map over the success value of a `RoundRes`. -/
def RoundRes.map {α β : Type} (f : α → β) : RoundRes α → RoundRes β
  | .ok a => .ok (f a)
  | .err e => .err e
  | .crash s => .crash s

/-- The curve operations the `schnorr` package consumes from the external
`crypto`/`elliptic` libraries. `P` is the type of (non-nil) `crypto.ECPoint`
values; `coordX`/`coordY` are the affine accessors `X()`/`Y()`; `q` is
`ec.Params().N`; `gX`/`gY` are `ec.Params().Gx/Gy` (the coordinates of the
generator built by `NewECPointNoCurveCheck`); `add` is `ECPoint.Add`, which
returns an error (here `none`) when the sum fails point validation;
`scalarMult`/`scalarBaseMult`/`scalarBaseMultBJJ` are the scalar
multiplications; `validateBasic`/`validateBasicBJJ` the point validators. -/
structure CurveGroup (P : Type) where
  q : ℤ
  gX : ℤ
  gY : ℤ
  coordX : P → ℤ
  coordY : P → ℤ
  add : P → P → Option P
  scalarMult : P → ℤ → P
  scalarBaseMult : ℤ → P
  scalarBaseMultBJJ : ℤ → P
  validateBasic : P → Bool
  validateBasicBJJ : P → Bool

/-- The external hash functions consumed by the `schnorr` package:
`common.SHA512_256i_TAGGED(session, ints...)` and
`common.RejectionSample(q, hash)`. -/
structure HashFns where
  tagged : List ℕ → List ℤ → ℤ
  rejectionSample : ℤ → ℤ → ℤ

/-- Modelled from the spec: `crypto.ECPoint.ValidateBasic` (crypto package,
not under `src/`) called on a possibly-nil `*crypto.ECPoint` receiver; per
the spec a null `X` fails validation, so a nil receiver yields `false`. -/
def optValidateBasic (C : CurveGroup P) : Option P → Bool
  | none => false
  | some X => C.validateBasic X

/-- Modelled from the spec: `crypto.ECPoint.ValidateBasicBJJ` (crypto
package, not under `src/`) on a possibly-nil receiver; a null `X` fails
validation. -/
def optValidateBasicBJJ (C : CurveGroup P) : Option P → Bool
  | none => false
  | some X => C.validateBasicBJJ X

/-- The challenge derivation shared by the constructors and verifiers:
`c = RejectionSample(q, SHA512_256i_TAGGED(Session, ints...))`. -/
def computeChallenge (C : CurveGroup P) (H : HashFns) (session : List ℕ)
    (ints : List ℤ) : ℤ :=
  H.rejectionSample C.q (H.tagged session ints)

/-- `schnorr.ZKProof`: a discrete-log proof `{Alpha *crypto.ECPoint, T *big.Int}`;
either pointer field may be nil. -/
structure ZKProof (P : Type) where
  Alpha : Option P
  T : Option ℤ
deriving DecidableEq, Repr

/-- `schnorr.ZKVProof`: a dual-exponent proof
`{Alpha *crypto.ECPoint, T, U *big.Int}`. -/
structure ZKVProof (P : Type) where
  Alpha : Option P
  T : Option ℤ
  U : Option ℤ
deriving DecidableEq, Repr

def errZKCtor : String := "ZKProof constructor received nil or invalid value(s)"

def errZKCtorBJJ : String := "BJJ ZKProof constructor received nil or invalid value(s)"

def msgNilMul : String := "nil big.Int dereferenced by Mul"

/-- `schnorr.NewZKProof(Session, x, X, rand)`.  The blinding scalar `a`
stands for the value drawn by `common.GetRandomPositiveInt(rand, q)`.
Mirrors the Go control flow: the nil/validity guard, `alpha = g^a`,
`c = RejectionSample(q, H(Session, X, g, alpha))`, `t = (a + c*x) mod q`. -/
def NewZKProof (C : CurveGroup P) (H : HashFns) (session : List ℕ)
    (x : Option ℤ) (X : Option P) (a : ℤ) : CtorRes (ZKProof P) :=
  match x, X with
  | some x, some X =>
    if C.validateBasic X then
      let alpha := C.scalarBaseMult a
      let c := computeChallenge C H session
        [C.coordX X, C.coordY X, C.gX, C.gY, C.coordX alpha, C.coordY alpha]
      CtorRes.ok ⟨some alpha, some ((a + c * x) % C.q)⟩
    else CtorRes.err errZKCtor
  | _, _ => CtorRes.err errZKCtor

/-- `schnorr.NewZKProofBJJ(Session, x, X, rand)`.  The nil checks on `x` and
`X` present in `NewZKProof` are commented out in the source; only
`X.ValidateBasicBJJ()` guards the inputs, so a nil `x` reaches
`new(big.Int).Mul(c, x)` and dereferences nil (a crash), and `alpha` is
computed with `crypto.ScalarBaseMultBJJ`. -/
def NewZKProofBJJ (C : CurveGroup P) (H : HashFns) (session : List ℕ)
    (x : Option ℤ) (X : Option P) (a : ℤ) : CtorRes (ZKProof P) :=
  if optValidateBasicBJJ C X then
    match X with
    | some X =>
      let alpha := C.scalarBaseMultBJJ a
      let c := computeChallenge C H session
        [C.coordX X, C.coordY X, C.gX, C.gY, C.coordX alpha, C.coordY alpha]
      match x with
      | none => CtorRes.crash msgNilMul
      | some x => CtorRes.ok ⟨some alpha, some ((a + c * x) % C.q)⟩
    | none => CtorRes.crash msgNilMul
  else CtorRes.err errZKCtorBJJ

/-- `schnorr.ZKProof.ValidateBasic`: `pf.T != nil && pf.Alpha != nil`. -/
def ZKProofValidateBasic (pf : ZKProof P) : Bool :=
  pf.T.isSome && pf.Alpha.isSome

/-- `schnorr.ZKProof.Verify(Session, X)`.  Returns `false` for a nil proof or
a proof failing `ValidateBasic` (the field pattern match is that guard);
recomputes `c` from `(Session, X, g, Alpha)`; returns `false` when
`Alpha.Add(X^c)` errors; otherwise compares both affine coordinates of
`Alpha + [c]X` against those of `g^T`. -/
def ZKProofVerify (C : CurveGroup P) (H : HashFns) (pf : Option (ZKProof P))
    (session : List ℕ) (X : P) : Bool :=
  match pf with
  | none => false
  | some pf =>
    match pf.Alpha, pf.T with
    | some alpha, some t =>
      let c := computeChallenge C H session
        [C.coordX X, C.coordY X, C.gX, C.gY, C.coordX alpha, C.coordY alpha]
      let tG := C.scalarBaseMult t
      let Xc := C.scalarMult X c
      match C.add alpha Xc with
      | none => false
      | some aXc =>
        (C.coordX aXc == C.coordX tG) && (C.coordY aXc == C.coordY tG)
    | _, _ => false

/-- `schnorr.ZKVProof.ValidateBasic`:
`pf.Alpha != nil && pf.T != nil && pf.U != nil && pf.Alpha.ValidateBasic()`. -/
def ZKVProofValidateBasic (C : CurveGroup P) (pf : ZKVProof P) : Bool :=
  match pf.Alpha with
  | some alpha => pf.T.isSome && pf.U.isSome && C.validateBasic alpha
  | none => false

/-- `schnorr.ZKVProof.Verify(Session, V, R)`.  Fails closed (`some false`) on
a nil proof, missing fields or an invalid `Alpha`; recomputes `c` from
`(Session, V, R, g, Alpha)`.  The sum `R^T + g^U` is computed with its error
ignored (`tRuG, _ := tR.Add(uG)`), so when that addition fails while
`Alpha.Add(V^c)` succeeds, the final coordinate comparison dereferences a nil
point: that Go panic is the `none` outcome.  When `Alpha.Add(V^c)` errors the
function returns `some false` before the dereference. -/
def ZKVProofVerify (C : CurveGroup P) (H : HashFns) (pf : Option (ZKVProof P))
    (session : List ℕ) (V R : P) : Option Bool :=
  match pf with
  | none => some false
  | some pf =>
    match pf.Alpha, pf.T, pf.U with
    | some alpha, some t, some u =>
      if C.validateBasic alpha then
        let c := computeChallenge C H session
          [C.coordX V, C.coordY V, C.coordX R, C.coordY R, C.gX, C.gY,
           C.coordX alpha, C.coordY alpha]
        let tR := C.scalarMult R t
        let uG := C.scalarBaseMult u
        let tRuG := C.add tR uG
        let Vc := C.scalarMult V c
        match C.add alpha Vc with
        | none => some false
        | some aVc =>
          match tRuG with
          | none => none
          | some s =>
            some ((C.coordX s == C.coordX aVc) && (C.coordY s == C.coordY aVc))
      else some false
    | _, _, _ => some false

/-- A `tss.ParsedMessage` as `round3.Update`/`CanAccept` see it: whether its
content downcasts to `*SignRound3Message` and whether it is flagged as a
broadcast. -/
structure ParsedMessage where
  isRound3Content : Bool
  isBroadcast : Bool
deriving DecidableEq, Repr

/-- `round3.CanAccept(msg)`: content must be a `*SignRound3Message` and the
message must be a broadcast; anything else is silently rejected. -/
def round3CanAccept (msg : ParsedMessage) : Bool :=
  msg.isRound3Content && msg.isBroadcast

/-- The data `round3.Start` reads from peer j's round-2 message:
`UnmarshalDeCommitment()` (a list of big.Ints) and `UnmarshalZKProof(ec)`,
the latter `none` when unmarshalling errors and otherwise the pair
`(Alpha, T)` of the carried discrete-log proof. -/
structure R2Msg (P : Type) where
  deCmt : List ℤ
  proof : Option (P × ℤ)

/-- Modelled from the spec: `edwards25519.ExtendedGroupElement` together with
the conversion helpers of `eddsa/signing/utils.go` (not under `src/`).  An
extended element is a projective representation of an underlying affine
point; `ecPointToExtendedElement` additionally takes randomness that only
rescales the representation (the `scale` component), and `ToBytes`
normalizes, so the encoding depends only on the affine point. -/
structure ExtElem where
  pt : ℤ × ℤ
  scale : ℤ
deriving DecidableEq, Repr

/-- The external functions `round3.Start` consumes, abstract here: the
commitment scheme, `crypto.NewECPoint`, the cofactor-clearing
`EightInvEight`, edwards25519 point/scalar arithmetic, the byte-encoding
helpers of `eddsa/signing/utils.go`, and `poseidon.HashBytes`.  These live in
this repository outside `src/` or in external libraries; each is modelled
from the spec as an opaque deterministic function of its inputs. -/
structure ExtEnv (P : Type) where
  appendBigInt : List ℕ → ℕ → List ℕ
  deCommit : ℤ → List ℤ → Bool × List ℤ
  newECPoint : ℤ → ℤ → Option P
  eightInvEight : P → P
  edAdd : ℤ × ℤ → ℤ × ℤ → ℤ × ℤ
  geBase : List ℕ → ℤ × ℤ
  bigIntToEncodedBytes : ℤ → List ℕ
  encodedBytesToBigInt : List ℕ → ℤ
  edEncode : ℤ × ℤ → List ℕ
  ecPointToEncodedBytes : ℤ → ℤ → List ℕ
  poseidonHashBytes : List ℕ → Except String ℕ
  scReduce : List ℕ → List ℕ
  scMulAdd : List ℕ → List ℕ → List ℕ → List ℕ

/-- Modelled from the spec: `ecPointToExtendedElement(ec, X, Y, rand)` builds
the randomized projective representation of the affine point `(X, Y)`. -/
def ecPointToExtendedElement (x y rand : ℤ) : ExtElem :=
  ⟨(x, y), rand⟩

/-- Modelled from the spec: `addExtendedElements(a, b)` adds the underlying
affine points (external edwards25519 arithmetic, the abstract `edAdd`) and
combines the projective scales. -/
def addExtendedElements (env : ExtEnv P) (a b : ExtElem) : ExtElem :=
  ⟨env.edAdd a.pt b.pt, a.scale * b.scale⟩

/-- Modelled from the spec: `R.ToBytes(&encodedR)` normalizes the projective
representation, so the 32-byte encoding depends only on the affine point. -/
def extToBytes (env : ExtEnv P) (e : ExtElem) : List ℕ :=
  env.edEncode e.pt

/-- Structural worker for `natBytesBE`: the first argument is fuel, always
called with at least the number of base-256 digits of `n`. -/
def natBytesBEAux : ℕ → ℕ → List ℕ
  | 0, _ => []
  | fuel + 1, n => if n = 0 then [] else natBytesBEAux fuel (n / 256) ++ [n % 256]

/-- `big.Int.Bytes()` for a non-negative integer: big-endian base-256 digits,
empty for zero. -/
def natBytesBE (n : ℕ) : List ℕ :=
  natBytesBEAux n n

/-- `m.FillBytes(make([]byte, L))`: the big-endian encoding of `m` zero-padded
on the left to exactly `L` bytes; `none` (a Go panic) when `m` does not fit. -/
def fillBytesBE (m L : ℕ) : Option (List ℕ) :=
  let b := natBytesBE m
  if b.length ≤ L then some (List.replicate (L - b.length) 0 ++ b) else none

/-- `var lambda [64]byte; copy(lambda[:], src)`: the first 64 bytes of `src`,
right-padded with zeros to length 64. -/
def copyInto64 (src : List ℕ) : List ℕ :=
  src.take 64 ++ List.replicate (64 - src.length) 0

def msgEmptySlice : String := "empty slice detected in Poseidon inputs"

/-- `flattenByteSlices(slices)`: panics (`none`) when any slice is empty,
otherwise concatenates all slices. -/
def flattenByteSlices (slices : List (List ℕ)) : Option (List ℕ) :=
  if slices.any (fun s => s.length == 0) then none else some slices.flatten

def errDeCommit : String := "de-commitment verify failed"

def errDeCommitLen : String := "length of de-commitment should be 2"

def errUnmarshalProof : String := "failed to unmarshal Rj proof"

def errProveRj : String := "failed to prove Rj"

def errAlreadyStarted : String := "round already started"

def errPoseidon : String := "Poseidon hashing failed"

def msgNilEight : String := "EightInvEight dereferenced a nil ECPoint"

def msgFillBytes : String := "FillBytes buffer too small"

/-- Steps 2-6 of `round3.Start`: the loop over every party index `j ≠ i`.
For each peer: open the commitment (`DeCommit`), check the payload has
exactly two coordinates, reconstruct the point with `crypto.NewECPoint`,
cofactor-clear it with `EightInvEight` — the source calls `Rj.EightInvEight()`
BEFORE checking the `NewECPoint` error, so a failed reconstruction
dereferences the nil `Rj` (a crash) and the `WrapError(err, Pj)` return below
it is unreachable — unmarshal and verify the peer's discrete-log proof under
the per-peer context, and accumulate the point into `R`.  Culprit lists
mirror the `WrapError` calls of the source: the two de-commitment errors name
no culprit, the proof errors name `Pj`. -/
def round3PeerLoop (C : CurveGroup P) (H : HashFns) (env : ExtEnv P)
    (ssid : List ℕ) (cjs : List ℤ) (r2msgs : List (R2Msg P)) (rands : ℕ → ℤ)
    (i : ℕ) : List ℕ → ExtElem → RoundRes ExtElem
  | [], R => RoundRes.ok R
  | j :: js, R =>
    if j = i then round3PeerLoop C H env ssid cjs r2msgs rands i js R
    else
      let contextJ := env.appendBigInt ssid j
      let r2 := r2msgs.getD j ⟨[], none⟩
      let dc := env.deCommit (cjs.getD j 0) r2.deCmt
      if !dc.1 then RoundRes.err ⟨errDeCommit, []⟩
      else if dc.2.length ≠ 2 then RoundRes.err ⟨errDeCommitLen, []⟩
      else
        match env.newECPoint (dc.2.getD 0 0) (dc.2.getD 1 0) with
        | none => RoundRes.crash msgNilEight
        | some Rj0 =>
          let Rj := env.eightInvEight Rj0
          match r2.proof with
          | none => RoundRes.err ⟨errUnmarshalProof, [j]⟩
          | some pr =>
            if ZKProofVerify C H (some ⟨some pr.1, some pr.2⟩) contextJ Rj then
              round3PeerLoop C H env ssid cjs r2msgs rands i js
                (addExtendedElements env R
                  (ecPointToExtendedElement (C.coordX Rj) (C.coordY Rj) (rands j)))
            else RoundRes.err ⟨errProveRj, [j]⟩

/-- The values steps 7-9 of `round3.Start` store: the encoded `R`, the
reduced challenge scalar, the local signature share and `temp.r`. -/
structure TailOut where
  encodedR : List ℕ
  lambdaReduced : List ℕ
  localS : List ℕ
  r : ℤ
deriving DecidableEq, Repr

/-- Steps 7-9 of `round3.Start`: encode `R` and the public key, append the
message segment (natural big-endian bytes when `fullBytesLen == 0`, otherwise
`FillBytes`), flatten the poseidon inputs (which panics on an empty segment),
hash with poseidon, reduce the hash to the scalar `lambdaReduced` with
`ScReduce`, and compute `localS = lambda*wi + ri` with `ScMulAdd`. -/
def round3Tail (env : ExtEnv P) (R : ExtElem) (ri wi : ℤ)
    (pubX pubY : ℤ) (m L : ℕ) : RoundRes TailOut :=
  let encodedR := extToBytes env R
  let encodedPubKey := env.ecPointToEncodedBytes pubX pubY
  let mseg? := if L = 0 then some (natBytesBE m) else fillBytesBE m L
  match mseg? with
  | none => RoundRes.crash msgFillBytes
  | some mseg =>
    match flattenByteSlices [encodedR, encodedPubKey, mseg] with
    | none => RoundRes.crash msgEmptySlice
    | some flat =>
      match env.poseidonHashBytes flat with
      | Except.error _ => RoundRes.err ⟨errPoseidon, []⟩
      | Except.ok h =>
        let lambda := copyInto64 (natBytesBE h)
        let lambdaReduced := env.scReduce lambda
        let localS := env.scMulAdd lambdaReduced
          (env.bigIntToEncodedBytes wi) (env.bigIntToEncodedBytes ri)
        RoundRes.ok ⟨encodedR, lambdaReduced, localS,
          env.encodedBytesToBigInt encodedR⟩

/-- The state of a `round3` object: the round bookkeeping (`started`,
`number`, the per-sender acceptance table `ok`), the party layout, the
`temp` data Start reads (`ri`, `wi`, message, ssid, received commitments and
round-2 messages, the public key, the randomness source for extended-element
conversions) and the fields Start writes (`r`, `si`, the stored round-3
message, the outgoing broadcasts). -/
structure Round3 (P : Type) where
  started : Bool
  number : ℕ
  ok : List Bool
  i : ℕ
  n : ℕ
  ssid : List ℕ
  ri : ℤ
  wi : ℤ
  m : ℕ
  fullBytesLen : ℕ
  cjs : List ℤ
  r2msgs : List (R2Msg P)
  pubX : ℤ
  pubY : ℤ
  rands : ℕ → ℤ
  r : ℤ
  si : List ℕ
  signRound3Messages : List (Option ParsedMessage)
  outMsgs : List ParsedMessage

/-- `round3.Start()`: refuses re-entry when `started`; otherwise sets
`number = 3`, `started = true`, resets the acceptance table, runs the peer
loop from `R = g^{ri}` (extended representation), runs the hashing tail, and
on success records `r` and `si` and broadcasts the round-3 message (also
storing it at the own index).  The mutations made before a failure are kept. -/
def round3Start (C : CurveGroup P) (H : HashFns) (env : ExtEnv P)
    (st : Round3 P) : Round3 P × RoundRes Unit :=
  if st.started then (st, RoundRes.err ⟨errAlreadyStarted, []⟩)
  else
    let st1 := { st with number := 3, started := true,
                         ok := List.replicate st.ok.length false }
    let R0 : ExtElem := ⟨env.geBase (env.bigIntToEncodedBytes st.ri), 1⟩
    match round3PeerLoop C H env st.ssid st.cjs st.r2msgs st.rands st.i
        (List.range st.n) R0 with
    | RoundRes.err e => (st1, RoundRes.err e)
    | RoundRes.crash s => (st1, RoundRes.crash s)
    | RoundRes.ok R =>
      match round3Tail env R st.ri st.wi st.pubX st.pubY st.m st.fullBytesLen with
      | RoundRes.err e => (st1, RoundRes.err e)
      | RoundRes.crash s => (st1, RoundRes.crash s)
      | RoundRes.ok t =>
        let r3msg : ParsedMessage := ⟨true, true⟩
        ({ st1 with r := t.r, si := t.localS,
                    signRound3Messages := st1.signRound3Messages.set st.i (some r3msg),
                    outMsgs := st1.outMsgs ++ [r3msg] },
         RoundRes.ok ())

/-- The loop of `round3.Update()`: walk the acceptance table and the received
round-3 messages in lockstep; a slot already `true` is skipped, a missing or
unacceptable message clears the returned flag, an acceptable one marks the
slot.  Go indexes `round.ok[j]` for each message index `j`; both lists have
length n by construction, so the mismatched-length fallthrough is never
exercised. -/
def round3UpdateLoop : List Bool → List (Option ParsedMessage) → Bool × List Bool
  | okj :: oks, msg :: msgs =>
    let rest := round3UpdateLoop oks msgs
    if okj then (rest.1, true :: rest.2)
    else
      match msg with
      | none => (false, false :: rest.2)
      | some m =>
        if round3CanAccept m then (rest.1, true :: rest.2)
        else (false, false :: rest.2)
  | oks, _ => (true, oks)

/-- `round3.Update()`: runs the acceptance loop over the state's table and
messages and stores the updated table. -/
def round3Update (st : Round3 P) : Bool × Round3 P :=
  let res := round3UpdateLoop st.ok st.signRound3Messages
  (res.1, { st with ok := res.2 })

/-- `round3.NextRound()`: clears `started` and hands the state to the
finalization round. -/
def round3NextRound (st : Round3 P) : Round3 P :=
  { st with started := false }

/-- The honest-path aggregation of step 5 of `round3.Start`, as a function of
the peers' affine nonce points paired with the randomness drawn for each
extended-coordinate conversion: starting from the own extended `R`, fold
`addExtendedElements ∘ ecPointToExtendedElement` over the peers. -/
def aggregateRAux (env : ExtEnv P) : ExtElem → List ((ℤ × ℤ) × ℤ) → ExtElem
  | R, [] => R
  | R, (p, rnd) :: rest =>
    aggregateRAux env
      (addExtendedElements env R (ecPointToExtendedElement p.1 p.2 rnd)) rest

/-- A small concrete instance of the curve interface used to exercise the
embedding on explicit inputs: the additive group of integers mod 5, with the
x-coordinate the representative and the y-coordinate 0. -/
def testCurve : CurveGroup ℤ where
  q := 5
  gX := 1
  gY := 0
  coordX := fun p => p
  coordY := fun _ => 0
  add := fun a b => some ((a + b) % 5)
  scalarMult := fun p k => (p * k) % 5
  scalarBaseMult := fun k => k % 5
  scalarBaseMultBJJ := fun k => k % 5
  validateBasic := fun _ => true
  validateBasicBJJ := fun _ => true

/-- A concrete hash instance for exercising the embedding. -/
def testHash : HashFns where
  tagged := fun s xs => (s.sum : ℤ) + xs.sum
  rejectionSample := fun q h => h % q

/-- A concrete instance of the external environment of `round3.Start`. -/
def testEnv : ExtEnv ℤ where
  appendBigInt := fun s j => s ++ [j]
  deCommit := fun _ d => (true, d)
  newECPoint := fun x _ => some (x % 5)
  eightInvEight := fun p => p
  edAdd := fun a b => (a.1 + b.1, a.2 + b.2)
  geBase := fun _ => (0, 0)
  bigIntToEncodedBytes := fun z => [z.natAbs % 256]
  encodedBytesToBigInt := fun l => (l.sum : ℤ)
  edEncode := fun p => [p.1.natAbs % 256, p.2.natAbs % 256]
  ecPointToEncodedBytes := fun _ _ => [7]
  poseidonHashBytes := fun l => Except.ok l.sum
  scReduce := fun l => l.take 32
  scMulAdd := fun a b c => a ++ b ++ c

/-- A concrete two-party round-3 state (own index 0, peer index 1). -/
def baseSt : Round3 ℤ where
  started := false
  number := 2
  ok := [false, false]
  i := 0
  n := 2
  ssid := [3]
  ri := 1
  wi := 1
  m := 1
  fullBytesLen := 0
  cjs := [0, 0]
  r2msgs := [⟨[], none⟩, ⟨[9, 9], none⟩]
  pubX := 0
  pubY := 0
  rands := fun _ => 1
  r := 0
  si := []
  signRound3Messages := [none, none]
  outMsgs := []

/-- C1: Discrete-log proof round-trip (completeness).  For every scalar `x`,
every valid `X = g^x`, every session tag and every drawn blinding scalar `a`
(the value produced by the randomness source), `NewZKProof` succeeds and
`Verify` accepts the returned proof.  The hypotheses are the group laws of
the external curve library: `g^{z mod q} = g^z` (the generator's order
divides `q`), `(g^z)^k = g^{zk}`, and `g^y + g^z = g^{y+z}` with the point
addition succeeding. -/
theorem claim1_zkproof_roundtrip (C : CurveGroup P) (H : HashFns)
    (session : List ℕ) (x a : ℤ)
    (hValid : C.validateBasic (C.scalarBaseMult x) = true)
    (hMod : ∀ z : ℤ, C.scalarBaseMult (z % C.q) = C.scalarBaseMult z)
    (hSM : ∀ z k : ℤ, C.scalarMult (C.scalarBaseMult z) k = C.scalarBaseMult (z * k))
    (hAdd : ∀ y z : ℤ, C.add (C.scalarBaseMult y) (C.scalarBaseMult z)
        = some (C.scalarBaseMult (y + z))) :
    ∃ pf : ZKProof P,
      NewZKProof C H session (some x) (some (C.scalarBaseMult x)) a = CtorRes.ok pf ∧
      ZKProofVerify C H (some pf) session (C.scalarBaseMult x) = true := by
  refine ⟨⟨some (C.scalarBaseMult a), some ((a + computeChallenge C H session
      [C.coordX (C.scalarBaseMult x), C.coordY (C.scalarBaseMult x), C.gX, C.gY,
       C.coordX (C.scalarBaseMult a), C.coordY (C.scalarBaseMult a)] * x) % C.q)⟩,
    ?_, ?_⟩
  · simp [NewZKProof, hValid]
  · simp only [ZKProofVerify, hMod, hSM, hAdd]
    rw [mul_comm x _]
    simp

/-- C1 witness: the round-trip theorem applied at the concrete mod-5 instance
with `x = 2`, blinding scalar `a = 3` and session tag `[1]`. -/
theorem claim1_witness :
    ∃ pf : ZKProof ℤ,
      NewZKProof testCurve testHash [1] (some 2) (some (testCurve.scalarBaseMult 2)) 3
        = CtorRes.ok pf ∧
      ZKProofVerify testCurve testHash (some pf) [1] (testCurve.scalarBaseMult 2) = true :=
  claim1_zkproof_roundtrip testCurve testHash [1] 2 3 rfl
    (fun z => by simp [testCurve, Int.emod_emod_of_dvd])
    (fun z k => by
      simp only [testCurve]
      rw [Int.mul_emod, Int.emod_emod_of_dvd z (dvd_refl 5), ← Int.mul_emod])
    (fun y z => by
      simp only [testCurve, Option.some.injEq]
      rw [← Int.add_emod])

/-- C2: `ZKProof.Verify(session, X)` returns true exactly when the proof is
non-nil with non-nil fields and `Alpha + [c]X` exists as a valid point and
agrees with `g^T` on both affine coordinates, `c` being recomputed as the
rejection-sampled tagged hash of `(session, X, g, Alpha)`; in particular it
returns false for a nil proof or nil fields, and false when the point
addition fails. -/
theorem claim2_zkproof_verify_characterization (C : CurveGroup P) (H : HashFns)
    (session : List ℕ) (X : P) (pf : Option (ZKProof P)) :
    ZKProofVerify C H pf session X = true ↔
      ∃ p alpha t, pf = some p ∧ p.Alpha = some alpha ∧ p.T = some t ∧
        ∃ s, C.add alpha (C.scalarMult X (computeChallenge C H session
              [C.coordX X, C.coordY X, C.gX, C.gY, C.coordX alpha, C.coordY alpha]))
            = some s ∧
          C.coordX s = C.coordX (C.scalarBaseMult t) ∧
          C.coordY s = C.coordY (C.scalarBaseMult t) := by
  cases pf with
  | none => simp [ZKProofVerify]
  | some p =>
    obtain ⟨A, T⟩ := p
    cases A with
    | none => simp [ZKProofVerify]
    | some alpha =>
      cases T with
      | none => simp [ZKProofVerify]
      | some t =>
        cases hadd : C.add alpha (C.scalarMult X (computeChallenge C H session
            [C.coordX X, C.coordY X, C.gX, C.gY, C.coordX alpha, C.coordY alpha])) with
        | none => simp [ZKProofVerify, hadd]
        | some s => simp [ZKProofVerify, hadd, and_assoc]

/-- C3: `ZKVProof.Verify(session, V, R)` fails closed (`some false`) on a nil
proof or a proof failing `ValidateBasic` (nil `Alpha`/`T`/`U` or an `Alpha`
failing point validation), and produces `some true` exactly when both sums
`[T]R + [U]g` and `Alpha + [c]V` exist and agree on both affine coordinates,
`c` recomputed from `(session, V, R, g, Alpha)`.  The value `none` models the
one abnormal path of the source (`tR.Add(uG)` failing while `Alpha.Add(Vc)`
succeeds, whereupon the ignored error leaves a nil point that the coordinate
comparison dereferences), on which the function returns no boolean at all. -/
theorem claim3_zkvproof_verify_characterization (C : CurveGroup P) (H : HashFns)
    (session : List ℕ) (V R : P) (pf : Option (ZKVProof P)) :
    (pf = none → ZKVProofVerify C H pf session V R = some false) ∧
    (∀ p, pf = some p → ZKVProofValidateBasic C p = false →
        ZKVProofVerify C H pf session V R = some false) ∧
    (ZKVProofVerify C H pf session V R = some true ↔
      ∃ p alpha t u, pf = some p ∧ p.Alpha = some alpha ∧ p.T = some t ∧
        p.U = some u ∧ C.validateBasic alpha = true ∧
        ∃ lhs rhs,
          C.add (C.scalarMult R t) (C.scalarBaseMult u) = some lhs ∧
          C.add alpha (C.scalarMult V (computeChallenge C H session
            [C.coordX V, C.coordY V, C.coordX R, C.coordY R, C.gX, C.gY,
             C.coordX alpha, C.coordY alpha])) = some rhs ∧
          C.coordX lhs = C.coordX rhs ∧ C.coordY lhs = C.coordY rhs) := by
  refine ⟨fun h => by subst h; rfl, ?_, ?_⟩
  · intro p hp hvb
    subst hp
    obtain ⟨A, T, U⟩ := p
    cases A with
    | none => simp [ZKVProofVerify]
    | some alpha =>
      cases T with
      | none => simp [ZKVProofVerify]
      | some t =>
        cases U with
        | none => simp [ZKVProofVerify]
        | some u =>
          simp only [ZKVProofValidateBasic, Option.isSome_some, Bool.true_and,
            Bool.and_self] at hvb
          simp [ZKVProofVerify, hvb]
  · cases pf with
    | none => simp [ZKVProofVerify]
    | some p =>
      obtain ⟨A, T, U⟩ := p
      cases A with
      | none => simp [ZKVProofVerify]
      | some alpha =>
        cases T with
        | none => simp [ZKVProofVerify]
        | some t =>
          cases U with
          | none => simp [ZKVProofVerify]
          | some u =>
            cases hvb : C.validateBasic alpha with
            | false => simp [ZKVProofVerify, hvb]
            | true =>
              cases haVc : C.add alpha (C.scalarMult V (computeChallenge C H session
                  [C.coordX V, C.coordY V, C.coordX R, C.coordY R, C.gX, C.gY,
                   C.coordX alpha, C.coordY alpha])) with
              | none => simp [ZKVProofVerify, hvb, haVc]
              | some aVc =>
                cases htRuG : C.add (C.scalarMult R t) (C.scalarBaseMult u) with
                | none => simp [ZKVProofVerify, hvb, haVc, htRuG]
                | some s => simp [ZKVProofVerify, hvb, haVc, htRuG, and_assoc]

/-- C3 witness: the fails-closed direction applied at the concrete instance
with a nil proof. -/
theorem claim3_witness :
    ZKVProofVerify testCurve testHash none [] 0 0 = some false :=
  (claim3_zkvproof_verify_characterization testCurve testHash [] 0 0 none).1 rfl

/-- C7 counterexample: `NewZKProofBJJ` with a nil witness scalar `x` and a
valid `X` does NOT return the invalid-witness error (the nil checks are
commented out in the source): the run reaches `new(big.Int).Mul(c, x)` and
dereferences the nil `x`, refuting the claim that the constructors return
the invalid-witness error exactly on nil or curve-invalid arguments. -/
theorem claim7_counterexample :
    NewZKProofBJJ testCurve testHash [] none (some 1) 3 = CtorRes.crash msgNilMul := rfl

/-- C7 amended: `NewZKProof` errors exactly when `x` is nil, `X` is nil or
`X` fails validation, and otherwise returns a proof; `NewZKProofBJJ` guards
only `X.ValidateBasicBJJ()`: it errors exactly when `X` is nil or fails BJJ
validation, returns a proof when `X` is valid and `x` non-nil, and crashes on
a nil `x` with a valid `X`. -/
theorem claim7_amended_ctor_errors (C : CurveGroup P) (H : HashFns)
    (session : List ℕ) (x : Option ℤ) (X : Option P) (a : ℤ) :
    ((∃ s, NewZKProof C H session x X a = CtorRes.err s) ↔
      (x = none ∨ X = none ∨ optValidateBasic C X = false)) ∧
    ((x ≠ none ∧ X ≠ none ∧ optValidateBasic C X = true) →
      ∃ pf, NewZKProof C H session x X a = CtorRes.ok pf) ∧
    ((∃ s, NewZKProofBJJ C H session x X a = CtorRes.err s) ↔
      optValidateBasicBJJ C X = false) ∧
    ((optValidateBasicBJJ C X = true ∧ x = none) →
      NewZKProofBJJ C H session x X a = CtorRes.crash msgNilMul) ∧
    ((optValidateBasicBJJ C X = true ∧ x ≠ none) →
      ∃ pf, NewZKProofBJJ C H session x X a = CtorRes.ok pf) := by
  cases x with
  | none =>
    cases X with
    | none => simp [NewZKProof, NewZKProofBJJ, optValidateBasic, optValidateBasicBJJ]
    | some X0 =>
      cases hv : C.validateBasic X0 <;>
        cases hb : C.validateBasicBJJ X0 <;>
          simp [NewZKProof, NewZKProofBJJ, optValidateBasic, optValidateBasicBJJ, hv, hb]
  | some x0 =>
    cases X with
    | none => simp [NewZKProof, NewZKProofBJJ, optValidateBasic, optValidateBasicBJJ]
    | some X0 =>
      cases hv : C.validateBasic X0 <;>
        cases hb : C.validateBasicBJJ X0 <;>
          simp [NewZKProof, NewZKProofBJJ, optValidateBasic, optValidateBasicBJJ, hv, hb]

/-- C7 witness: the amended characterization applied at concrete inputs on
both success paths. -/
theorem claim7_witness :
    (∃ pf, NewZKProof testCurve testHash [] (some 2) (some 1) 3 = CtorRes.ok pf) ∧
    (∃ pf, NewZKProofBJJ testCurve testHash [] (some 2) (some 1) 3 = CtorRes.ok pf) :=
  ⟨(claim7_amended_ctor_errors testCurve testHash [] (some 2) (some 1) 3).2.1
      ⟨by simp, by simp, rfl⟩,
   (claim7_amended_ctor_errors testCurve testHash [] (some 2) (some 1) 3).2.2.2.2
      ⟨rfl, by simp⟩⟩

/-- Running the acceptance loop a second time on its own output changes
nothing. -/
theorem round3UpdateLoop_idem (msgs : List (Option ParsedMessage)) :
    ∀ oks : List Bool,
      round3UpdateLoop (round3UpdateLoop oks msgs).2 msgs
        = round3UpdateLoop oks msgs := by
  induction msgs with
  | nil => intro oks; cases oks <;> rfl
  | cons m ms ih =>
    intro oks
    cases oks with
    | nil => rfl
    | cons b bs =>
      cases b with
      | true => simp [round3UpdateLoop, ih]
      | false =>
        cases m with
        | none => simp [round3UpdateLoop, ih]
        | some mm =>
          cases hca : round3CanAccept mm <;> simp [round3UpdateLoop, hca, ih]

/-- A slot already marked accepted is never cleared by the loop. -/
theorem round3UpdateLoop_mono (msgs : List (Option ParsedMessage)) :
    ∀ (oks : List Bool) (j : ℕ), oks.getD j false = true →
      (round3UpdateLoop oks msgs).2.getD j false = true := by
  induction msgs with
  | nil => intro oks j h; cases oks <;> simpa [round3UpdateLoop] using h
  | cons m ms ih =>
    intro oks j h
    cases oks with
    | nil => simpa [round3UpdateLoop] using h
    | cons b bs =>
      cases j with
      | zero =>
        simp only [List.getD_cons_zero] at h
        subst h
        simp [round3UpdateLoop]
      | succ j =>
        simp only [List.getD_cons_succ] at h
        cases b with
        | true => simpa [round3UpdateLoop] using ih bs j h
        | false =>
          cases m with
          | none => simpa [round3UpdateLoop] using ih bs j h
          | some mm =>
            cases hca : round3CanAccept mm <;>
              simpa [round3UpdateLoop, hca] using ih bs j h

/-- The flag the loop returns is true exactly when every slot of the updated
table is accepted (for tables and message lists of equal length). -/
theorem round3UpdateLoop_ret_all (msgs : List (Option ParsedMessage)) :
    ∀ oks : List Bool, oks.length = msgs.length →
      (round3UpdateLoop oks msgs).1 = (round3UpdateLoop oks msgs).2.all id := by
  induction msgs with
  | nil =>
    intro oks h
    cases oks with
    | nil => rfl
    | cons b bs => simp at h
  | cons m ms ih =>
    intro oks h
    cases oks with
    | nil => simp at h
    | cons b bs =>
      simp only [List.length_cons, Nat.succ.injEq] at h
      cases b with
      | true => simpa [round3UpdateLoop] using ih bs h
      | false =>
        cases m with
        | none => simp [round3UpdateLoop]
        | some mm =>
          cases hca : round3CanAccept mm with
          | false => simp [round3UpdateLoop, hca]
          | true => simpa [round3UpdateLoop, hca] using ih bs h

/-- C9: `round3.Update` is idempotent (running it twice on the same messages
yields the same acceptance table and the same result), monotone (an accepted
sender slot is never modified again), and returns true exactly when every
sender slot is accepted after processing. -/
theorem claim9_update_idempotent_monotone (st : Round3 P) :
    round3Update (round3Update st).2 = round3Update st ∧
    (∀ j : ℕ, st.ok.getD j false = true →
      (round3Update st).2.ok.getD j false = true) ∧
    (st.ok.length = st.signRound3Messages.length →
      (round3Update st).1 = (round3Update st).2.ok.all id) := by
  refine ⟨?_, ?_, ?_⟩
  · simp [round3Update, round3UpdateLoop_idem]
  · intro j h
    simpa [round3Update] using round3UpdateLoop_mono st.signRound3Messages st.ok j h
  · intro h
    simpa [round3Update] using round3UpdateLoop_ret_all st.signRound3Messages st.ok h

/-- A concrete state for exercising `round3.Update`: sender 0 already
accepted, sender 1's broadcast share message present. -/
def stW : Round3 ℤ :=
  { baseSt with ok := [true, false],
                signRound3Messages := [none, some ⟨true, true⟩] }

/-- C9 witness: the three parts of the Update theorem applied at the concrete
state `stW`, with the length and acceptance hypotheses discharged there. -/
theorem claim9_witness :
    round3Update (round3Update stW).2 = round3Update stW ∧
    (round3Update stW).2.ok.getD 0 false = true ∧
    (round3Update stW).1 = (round3Update stW).2.ok.all id :=
  ⟨(claim9_update_idempotent_monotone stW).1,
   (claim9_update_idempotent_monotone stW).2.1 0 rfl,
   (claim9_update_idempotent_monotone stW).2.2 rfl⟩

/-- A round whose started flag is set refuses `Start`: unchanged state and
the already-started error. -/
theorem round3Start_of_started (C : CurveGroup P) (H : HashFns) (env : ExtEnv P)
    (s : Round3 P) (hs : s.started = true) :
    round3Start C H env s = (s, RoundRes.err ⟨errAlreadyStarted, []⟩) := by
  simp [round3Start, hs]

/-- C10: the started flag is set before any validation work and never cleared
by a failure: a started round refuses `Start` (unchanged state, the
already-started error); a fresh `Start` leaves the flag set and the round
number 3 whatever the outcome; `NextRound` clears the flag; consequently any
second `Start` after a first one returns the already-started error. -/
theorem claim10_started_flag (C : CurveGroup P) (H : HashFns) (env : ExtEnv P)
    (st : Round3 P) :
    (st.started = true →
      round3Start C H env st = (st, RoundRes.err ⟨errAlreadyStarted, []⟩)) ∧
    (st.started = false → (round3Start C H env st).1.started = true ∧
      (round3Start C H env st).1.number = 3) ∧
    ((round3NextRound st).started = false) ∧
    (st.started = false →
      round3Start C H env (round3Start C H env st).1
        = ((round3Start C H env st).1, RoundRes.err ⟨errAlreadyStarted, []⟩)) := by
  have hset : st.started = false → (round3Start C H env st).1.started = true ∧
      (round3Start C H env st).1.number = 3 := by
    intro h
    simp only [round3Start, h, Bool.false_eq_true, if_false]
    split <;> try simp
    split <;> simp
  exact ⟨round3Start_of_started C H env st, hset, rfl,
    fun h => round3Start_of_started C H env _ (hset h).1⟩

/-- C10 witness: the started-flag theorem applied at the concrete two-party
state, on both an already-started state and a fresh one. -/
theorem claim10_witness :
    round3Start testCurve testHash testEnv { baseSt with started := true }
        = ({ baseSt with started := true }, RoundRes.err ⟨errAlreadyStarted, []⟩) ∧
    (round3Start testCurve testHash testEnv baseSt).1.started = true ∧
    (round3Start testCurve testHash testEnv baseSt).1.number = 3 ∧
    round3Start testCurve testHash testEnv
        (round3Start testCurve testHash testEnv baseSt).1
      = ((round3Start testCurve testHash testEnv baseSt).1,
         RoundRes.err ⟨errAlreadyStarted, []⟩) :=
  ⟨(claim10_started_flag testCurve testHash testEnv { baseSt with started := true }).1 rfl,
   ((claim10_started_flag testCurve testHash testEnv baseSt).2.1 rfl).1,
   ((claim10_started_flag testCurve testHash testEnv baseSt).2.1 rfl).2,
   (claim10_started_flag testCurve testHash testEnv baseSt).2.2.2 rfl⟩

/-- An environment in which every de-commitment check fails. -/
def envC4 : ExtEnv ℤ := { testEnv with deCommit := fun _ _ => (false, []) }

/-- C4 counterexample: a `round3.Start` run aborting in step 2 (the
de-commitment of peer 1 does not verify) returns the de-commitment error
with an EMPTY culprit list — the source calls `WrapError` without `Pj` there
— refuting the claim that every step 2-4 error carries the offending party's
identity. -/
theorem claim4_counterexample :
    (round3Start testCurve testHash envC4 baseSt).2
      = RoundRes.err ⟨errDeCommit, []⟩ := rfl

/-- C4 amended: every error the peer loop of `round3.Start` returns is either
one of the two de-commitment errors, which carry NO culprit, or a
proof-unmarshalling/proof-verification error, which carries exactly the
offending peer's index.  (A failed point reconstruction does not return the
attributed error at all: it crashes, see C5.) -/
theorem claim4_amended_error_attribution (C : CurveGroup P) (H : HashFns)
    (env : ExtEnv P) (ssid : List ℕ) (cjs : List ℤ) (r2msgs : List (R2Msg P))
    (rands : ℕ → ℤ) (i : ℕ) (js : List ℕ) (R : ExtElem) (e : TssError)
    (h : round3PeerLoop C H env ssid cjs r2msgs rands i js R = RoundRes.err e) :
    (e.culprits = [] ∧ (e.msg = errDeCommit ∨ e.msg = errDeCommitLen)) ∨
    (∃ j, j ∈ js ∧ e.culprits = [j] ∧
      (e.msg = errUnmarshalProof ∨ e.msg = errProveRj)) := by
  induction js generalizing R with
  | nil => simp [round3PeerLoop] at h
  | cons j js ih =>
    have lift : ∀ R' : ExtElem,
        round3PeerLoop C H env ssid cjs r2msgs rands i js R' = RoundRes.err e →
        (e.culprits = [] ∧ (e.msg = errDeCommit ∨ e.msg = errDeCommitLen)) ∨
        (∃ k, k ∈ j :: js ∧ e.culprits = [k] ∧
          (e.msg = errUnmarshalProof ∨ e.msg = errProveRj)) := by
      intro R' h'
      rcases ih R' h' with h1 | ⟨j', hj', hc, hm⟩
      · exact Or.inl h1
      · exact Or.inr ⟨j', List.mem_cons_of_mem _ hj', hc, hm⟩
    simp only [round3PeerLoop] at h
    split at h
    · exact lift _ h
    · split at h
      · cases h
        exact Or.inl ⟨rfl, Or.inl rfl⟩
      · split at h
        · cases h
          exact Or.inl ⟨rfl, Or.inr rfl⟩
        · split at h
          · cases h
          · split at h
            · cases h
              exact Or.inr ⟨j, List.mem_cons_self j js, rfl, Or.inl rfl⟩
            · split at h
              · exact lift _ h
              · cases h
                exact Or.inr ⟨j, List.mem_cons_self j js, rfl, Or.inr rfl⟩

/-- C4 witness: the amended classification applied to a concrete erroring
run of the peer loop (peer 1's proof fails to unmarshal), whose error indeed
carries culprit list `[1]`. -/
theorem claim4_witness :
    ((⟨errUnmarshalProof, [1]⟩ : TssError).culprits = [] ∧
      ((⟨errUnmarshalProof, [1]⟩ : TssError).msg = errDeCommit ∨
       (⟨errUnmarshalProof, [1]⟩ : TssError).msg = errDeCommitLen)) ∨
    (∃ j, j ∈ [0, 1] ∧ (⟨errUnmarshalProof, [1]⟩ : TssError).culprits = [j] ∧
      ((⟨errUnmarshalProof, [1]⟩ : TssError).msg = errUnmarshalProof ∨
       (⟨errUnmarshalProof, [1]⟩ : TssError).msg = errProveRj)) :=
  claim4_amended_error_attribution testCurve testHash testEnv [3] [0, 0]
    [⟨[], none⟩, ⟨[9, 9], none⟩] (fun _ => 1) 0 [0, 1] ⟨(0, 0), 1⟩
    ⟨errUnmarshalProof, [1]⟩ rfl

/-- An environment in which point reconstruction always fails. -/
def envC5 : ExtEnv ℤ := { testEnv with newECPoint := fun _ _ => none }

/-- C5: when peer 1's revealed coordinates do not reconstruct to a valid
curve point (`crypto.NewECPoint` errors, yielding a nil point), `round3.Start`
does NOT return the point-invalidity error attributing peer 1: the source
applies the cofactor-clearing `Rj.EightInvEight()` BEFORE checking the
reconstruction error, so the nil `Rj` is dereferenced and the run crashes;
the `WrapError(err, Pj)` return below the call is unreachable. -/
theorem claim5_nil_deref_on_bad_point :
    (round3Start testCurve testHash envC5 baseSt).2
      = RoundRes.crash msgNilEight := rfl

/-- A single-party state whose message is zero, so the message segment of
the poseidon input is empty (`big.Int.Bytes()` of 0 is empty). -/
def stC6 : Round3 ℤ :=
  { baseSt with n := 1, ok := [false], m := 0, cjs := [0],
                r2msgs := [⟨[], none⟩], signRound3Messages := [none] }

/-- C6 counterexample: a `round3.Start` execution in which the encoded
message segment has zero length does not return the empty-segment error to
its caller: `flattenByteSlices` panics, i.e. the run terminates abnormally,
refuting the claim that `Start` fails by returning the error. -/
theorem claim6_counterexample :
    (round3Start testCurve testHash testEnv stC6).2
      = RoundRes.crash msgEmptySlice := rfl

/-- C6 amended: whenever one of the three encoded poseidon-input segments is
empty (with `fullBytesLen = 0`, the only case in which a segment can be
empty), the hashing tail of `round3.Start` terminates abnormally with the
empty-slice panic instead of returning an error, and never proceeds to
hash. -/
theorem claim6_amended_empty_segment_crash (env : ExtEnv P) (R : ExtElem)
    (ri wi pubX pubY : ℤ) (m : ℕ)
    (h : extToBytes env R = [] ∨ env.ecPointToEncodedBytes pubX pubY = [] ∨
      natBytesBE m = []) :
    round3Tail env R ri wi pubX pubY m 0 = RoundRes.crash msgEmptySlice := by
  have hflat : flattenByteSlices
      [extToBytes env R, env.ecPointToEncodedBytes pubX pubY, natBytesBE m]
        = none := by
    rcases h with h | h | h <;> simp [flattenByteSlices, h]
  simp [round3Tail, hflat]

/-- C6 witness: the amended theorem applied at the concrete environment with
message 0. -/
theorem claim6_witness :
    round3Tail testEnv ⟨(0, 0), 1⟩ 1 1 0 0 0 0 = RoundRes.crash msgEmptySlice :=
  claim6_amended_empty_segment_crash testEnv ⟨(0, 0), 1⟩ 1 1 0 0 0
    (Or.inr (Or.inr rfl))

/-- Lift a binary operation to an `Option` accumulator, `none` acting as a
unit; used to reason about head-seeded folds under permutations. -/
def oadd {A : Type} (f : A → A → A) : Option A → A → Option A
  | none, a => some a
  | some b, a => some (f b a)

/-- Folding the lifted operation from a `some` seed is the `some` of the
plain fold. -/
theorem oadd_foldl_some {A : Type} (f : A → A → A) :
    ∀ (l : List A) (b : A), l.foldl (oadd f) (some b) = some (l.foldl f b) := by
  intro l
  induction l with
  | nil => intro b; rfl
  | cons a l ih => intro b; simpa [oadd] using ih (f b a)

/-- Folding a commutative associative operation from the head of a nonempty
list depends only on the list up to permutation. -/
theorem foldl_head_eq_of_perm {A : Type} (f : A → A → A)
    (hc : ∀ a b, f a b = f b a) (ha : ∀ a b c, f (f a b) c = f a (f b c))
    {x y : A} {l m : List A} (hperm : (x :: l).Perm (y :: m)) :
    l.foldl f x = m.foldl f y := by
  haveI : RightCommutative (oadd f) := ⟨by
    intro b a₁ a₂
    cases b with
    | none => simp [oadd, hc a₁ a₂]
    | some b => simp [oadd, ha, hc a₁ a₂]⟩
  have h := hperm.foldl_eq (f := oadd f) none
  simp only [List.foldl_cons, oadd] at h
  rw [oadd_foldl_some, oadd_foldl_some] at h
  exact Option.some.inj h

/-- A list is a permutation of its p-th element consed onto the list with
that index erased. -/
theorem perm_get_cons_eraseIdx {A : Type} (l : List A) (p : ℕ) (hp : p < l.length) :
    (l.get ⟨p, hp⟩ :: l.eraseIdx p).Perm l := by
  rw [List.eraseIdx_eq_take_drop_succ]
  have h1 : (l.get ⟨p, hp⟩ :: (List.take p l ++ List.drop (p + 1) l)).Perm
      (List.take p l ++ l.get ⟨p, hp⟩ :: List.drop (p + 1) l) :=
    List.perm_middle.symm
  rw [List.get_eq_getElem, List.getElem_cons_drop l p hp,
    List.take_append_drop] at h1
  exact h1

/-- The affine point underlying the honest-path aggregation is the plain
fold of the curve addition over the peers' points: the per-conversion
randomness only enters the projective scale. -/
theorem aggregateRAux_pt (env : ExtEnv P) :
    ∀ (l : List ((ℤ × ℤ) × ℤ)) (R : ExtElem),
      (aggregateRAux env R l).pt = (l.map Prod.fst).foldl env.edAdd R.pt := by
  intro l
  induction l with
  | nil => intro R; rfl
  | cons x xs ih =>
    intro R
    simp [aggregateRAux, addExtendedElements, ecPointToExtendedElement, ih]

/-- The hashing tail of `round3.Start` produces the same encoded `R` and the
same reduced lambda for any two extended elements with the same underlying
affine point, whatever the parties' own scalars `ri`, `wi` (which enter only
the signature share). -/
theorem round3Tail_map_congr (env : ExtEnv P) {R1 R2 : ExtElem}
    (hpt : R1.pt = R2.pt) (ri1 wi1 ri2 wi2 : ℤ) (pubX pubY : ℤ) (m L : ℕ) :
    RoundRes.map (fun t => (t.encodedR, t.lambdaReduced))
        (round3Tail env R1 ri1 wi1 pubX pubY m L)
      = RoundRes.map (fun t => (t.encodedR, t.lambdaReduced))
        (round3Tail env R2 ri2 wi2 pubX pubY m L) := by
  cases hm : (if L = 0 then some (natBytesBE m) else fillBytesBE m L) with
  | none => simp [round3Tail, extToBytes, hpt, hm, RoundRes.map]
  | some mseg =>
    cases hf : flattenByteSlices
        [env.edEncode R2.pt, env.ecPointToEncodedBytes pubX pubY, mseg] with
    | none => simp [round3Tail, extToBytes, hpt, hm, hf, RoundRes.map]
    | some flat =>
      cases hph : env.poseidonHashBytes flat with
      | error s => simp [round3Tail, extToBytes, hpt, hm, hf, hph, RoundRes.map]
      | ok hsh => simp [round3Tail, extToBytes, hpt, hm, hf, hph, RoundRes.map]

/-- C8: cross-party determinism of `R` and lambda.  Two honest parties `p`
and `q` running the finalization for the same session — same global list of
per-party nonce points (each one honestly equal to that party's own base
scalar multiple), same public key and message — obtain, after aggregating
their respective peers' points over arbitrary per-conversion randomness,
bit-identical encoded `R` and bit-identical reduced lambda; the randomness
streams `randsP`, `randsQ` are unconstrained.  The hypotheses on `edAdd` are
the commutativity and associativity of the external curve addition. -/
theorem claim8_cross_party_determinism (env : ExtEnv P)
    (pts : List (ℤ × ℤ)) (p q : ℕ) (hp : p < pts.length) (hq : q < pts.length)
    (rp rq wp wq : ℤ) (randsP randsQ : List ℤ)
    (hLp : (pts.eraseIdx p).length ≤ randsP.length)
    (hLq : (pts.eraseIdx q).length ≤ randsQ.length)
    (hOwnP : env.geBase (env.bigIntToEncodedBytes rp) = pts.get ⟨p, hp⟩)
    (hOwnQ : env.geBase (env.bigIntToEncodedBytes rq) = pts.get ⟨q, hq⟩)
    (hComm : ∀ a b, env.edAdd a b = env.edAdd b a)
    (hAssoc : ∀ a b c, env.edAdd (env.edAdd a b) c = env.edAdd a (env.edAdd b c))
    (pubX pubY : ℤ) (m L : ℕ) :
    RoundRes.map (fun t => (t.encodedR, t.lambdaReduced))
        (round3Tail env
          (aggregateRAux env ⟨env.geBase (env.bigIntToEncodedBytes rp), 1⟩
            ((pts.eraseIdx p).zip randsP)) rp wp pubX pubY m L)
      = RoundRes.map (fun t => (t.encodedR, t.lambdaReduced))
        (round3Tail env
          (aggregateRAux env ⟨env.geBase (env.bigIntToEncodedBytes rq), 1⟩
            ((pts.eraseIdx q).zip randsQ)) rq wq pubX pubY m L) := by
  apply round3Tail_map_congr
  rw [aggregateRAux_pt, aggregateRAux_pt,
    List.map_fst_zip _ _ hLp, List.map_fst_zip _ _ hLq]
  show (pts.eraseIdx p).foldl env.edAdd (env.geBase (env.bigIntToEncodedBytes rp))
      = (pts.eraseIdx q).foldl env.edAdd (env.geBase (env.bigIntToEncodedBytes rq))
  rw [hOwnP, hOwnQ]
  exact foldl_head_eq_of_perm env.edAdd hComm hAssoc
    ((perm_get_cons_eraseIdx pts p hp).trans (perm_get_cons_eraseIdx pts q hq).symm)

/-- C8 witness: the determinism theorem applied at the concrete environment
with two parties, different own scalars and different randomness streams. -/
theorem claim8_witness :
    RoundRes.map (fun t => (t.encodedR, t.lambdaReduced))
        (round3Tail testEnv
          (aggregateRAux testEnv ⟨testEnv.geBase (testEnv.bigIntToEncodedBytes 1), 1⟩
            ((([((0 : ℤ), (0 : ℤ)), ((0 : ℤ), (0 : ℤ))].eraseIdx 0).zip [5])))
          1 3 0 0 1 0)
      = RoundRes.map (fun t => (t.encodedR, t.lambdaReduced))
        (round3Tail testEnv
          (aggregateRAux testEnv ⟨testEnv.geBase (testEnv.bigIntToEncodedBytes 2), 1⟩
            ((([((0 : ℤ), (0 : ℤ)), ((0 : ℤ), (0 : ℤ))].eraseIdx 1).zip [7])))
          2 4 0 0 1 0) :=
  claim8_cross_party_determinism testEnv [((0 : ℤ), (0 : ℤ)), ((0 : ℤ), (0 : ℤ))]
    0 1 (by decide) (by decide) 1 2 3 4 [5] [7] (by decide) (by decide) rfl rfl
    (fun a b => by simp [testEnv, Int.add_comm])
    (fun a b c => by simp [testEnv, Int.add_assoc]) 0 0 1 0
